import Mathlib

/-!
Verification of the image-commit and layer-materialization pipeline
(`backends` package: `Commit`, `getImagec`, `setLayerConfig`, `downloadDiff`,
`compressDiffToTmpFile`, `merge`).

Shallow embedding conventions:
* Go nil-able slices and maps are `Option (List _)`: `none` is a nil
  slice/map, `some l` a non-nil one with entries `l` (map entries listed in
  a canonical order; only the key set / key-value set is observable in Go).
* Go `len(x) == 0` tests become `goLen x = 0`, which is true for both `none`
  and `some []`, exactly as `len` of a nil slice/map is `0`.
* Fallible Go calls are `Except String _`; external collaborator results are
  passed in explicitly as data.
-/

set_option autoImplicit false

namespace VicCommit

/-- Length of a Go slice/map modelled as `Option (List _)`; `len(nil) = 0`. -/
def goLen {α : Type} (s : Option (List α)) : Nat := (s.getD []).length

/-- Go `container.HealthConfig` (the fields `merge` touches). `Interval` and
`Timeout` are `time.Duration` (int64) and `Retries` an `int`; only their
comparison against zero matters here, so they are `Int`. -/
structure HealthConfig where
  Test : List String
  Interval : Int
  Timeout : Int
  Retries : Int
deriving DecidableEq, Repr

/-- Go `container.Config` restricted to the fields read or written by
`merge` (part_000 lines 367-458). `ExposedPorts` and `Volumes` are
`map[T]struct{}` (key sets), `Labels` is `map[string]string`. -/
structure Config where
  User : String
  ExposedPorts : Option (List String)
  Env : Option (List String)
  Cmd : Option (List String)
  Healthcheck : Option HealthConfig
  ArgsEscaped : Bool
  Volumes : Option (List String)
  WorkingDir : String
  Entrypoint : Option (List String)
  Labels : Option (List (String × String))
  StopSignal : String
deriving DecidableEq, Repr

/-- Go pattern `if a == zero { a = b }`: keep `a` unless it is the zero
value, in which case inherit `b`. -/
def fillIfZero {α : Type} [DecidableEq α] (a b zero : α) : α :=
  if a = zero then b else a

/-- Generic model of the Go loop `for x := range image { if !hit(acc, x) { acc = append(acc, x) } }`
where the hit test ranges over the accumulator as it grows. -/
def absorbList {α : Type} (hit : List α → α → Bool) (acc : List α) : List α → List α
  | [] => acc
  | x :: rest => absorbList hit (if hit acc x then acc else acc ++ [x]) rest

/-- Go `strings.Split(s, "=")[0]`: the longest prefix of `s` without `=`
(the whole string when no `=` occurs), written at character level so it
evaluates inside the kernel. -/
def envKey (s : String) : String := String.mk (s.data.takeWhile fun c => c ≠ '=')

/-- On Windows the env comparison upper-cases both keys with
`strings.ToUpper` (part_000 lines 389-393), written at character level so it
evaluates inside the kernel. -/
def normEnvKey (windows : Bool) (k : String) : String :=
  if windows then String.mk (k.data.map Char.toUpper) else k

/-- The inner `found` loop of the env merge: does some entry of `l` have the
same variable name as `imageEnv`? -/
def envFound (windows : Bool) (l : List String) (imageEnv : String) : Bool :=
  l.any fun userEnv =>
    normEnvKey windows (envKey imageEnv) == normEnvKey windows (envKey userEnv)

/-- The outer env loop of `merge` (part_000 lines 384-402): each missing image
entry is appended to `userConf.Env`, and later `found` checks range over the
grown list. -/
def mergeEnvLoop (windows : Bool) (acc : List String) (imageEnvs : List String) : List String :=
  absorbList (envFound windows) acc imageEnvs

/-- Env handling of `merge` (part_000 lines 381-403). -/
def mergeEnv (windows : Bool) (u i : Option (List String)) : Option (List String) :=
  if goLen u = 0 then i
  else some (mergeEnvLoop windows (u.getD []) (i.getD []))

/-- Membership test for a key-set map (`_, exists := m[k]`). -/
def keyFound (acc : List String) (p : String) : Bool := acc.any fun q => q == p

/-- ExposedPorts handling of `merge` (part_000 lines 371-379): inherit the whole
map when the user map is empty, otherwise add missing image ports when the
image map is non-nil. -/
def mergePorts (u i : Option (List String)) : Option (List String) :=
  if goLen u = 0 then i
  else
    match i with
    | none => u
    | some is => some (absorbList keyFound (u.getD []) is)

/-- Volumes handling of `merge` (part_000 lines 446-452): inherit the whole map
when the user map is empty, otherwise insert every image volume key (values are
`struct\x7b\x7d`, so inserting a present key is a no-op). -/
def mergeVolumes (u i : Option (List String)) : Option (List String) :=
  if goLen u = 0 then i
  else some (absorbList keyFound (u.getD []) (i.getD []))

/-- Does the label map already bind key `l`? -/
def labelKeyFound (acc : List (String × String)) (l : String) : Bool :=
  acc.any fun p => p.1 == l

/-- Labels handling of `merge` (part_000 lines 405-412): a nil user map is
replaced by an empty one, then image labels with fresh keys are inserted. -/
def mergeLabels (u i : Option (List (String × String))) : Option (List (String × String)) :=
  some (absorbList (fun acc p => labelKeyFound acc p.1) (u.getD []) (i.getD []))

/-- Healthcheck handling of `merge` (part_000 lines 424-441). -/
def mergeHealthcheck (u i : Option HealthConfig) : Option HealthConfig :=
  match i with
  | none => u
  | some ih =>
    match u with
    | none => some ih
    | some uh =>
      some
        { Test := if uh.Test.length = 0 then ih.Test else uh.Test
          Interval := fillIfZero uh.Interval ih.Interval 0
          Timeout := fillIfZero uh.Timeout ih.Timeout 0
          Retries := fillIfZero uh.Retries ih.Retries 0 }

/-- Entrypoint/Cmd/ArgsEscaped block of `merge` (part_000 lines 414-423),
returning `(Entrypoint, Cmd, ArgsEscaped)`. `Cmd` and the flag are inherited
when both user entrypoint and user cmd have length zero; the entrypoint is
inherited only when the user entrypoint is nil (not when it is an empty
non-nil slice). -/
def mergeEntrypointCmd (uE uC : Option (List String)) (uA : Bool)
    (iE iC : Option (List String)) (iA : Bool) :
    Option (List String) × Option (List String) × Bool :=
  if goLen uE = 0 then
    let c := if goLen uC = 0 then (iC, iA) else (uC, uA)
    let e := if uE = none then iE else uE
    (e, c.1, c.2)
  else (uE, uC, uA)

/-- Go `merge(userConf, imageConf)` (part_000 lines 367-458). The source
mutates `userConf` in place and always returns a nil error; the model returns
the mutated configuration. `windows` is `runtime.GOOS == "windows"`, fixed per
build. Each statement block of the source touches a disjoint set of fields, so
the record below lists them field by field. -/
def merge (windows : Bool) (userConf imageConf : Config) : Config :=
  let ec := mergeEntrypointCmd userConf.Entrypoint userConf.Cmd userConf.ArgsEscaped
      imageConf.Entrypoint imageConf.Cmd imageConf.ArgsEscaped
  { User := fillIfZero userConf.User imageConf.User ""
    ExposedPorts := mergePorts userConf.ExposedPorts imageConf.ExposedPorts
    Env := mergeEnv windows userConf.Env imageConf.Env
    Cmd := ec.2.1
    Healthcheck := mergeHealthcheck userConf.Healthcheck imageConf.Healthcheck
    ArgsEscaped := ec.2.2
    Volumes := mergeVolumes userConf.Volumes imageConf.Volumes
    WorkingDir := fillIfZero userConf.WorkingDir imageConf.WorkingDir ""
    Entrypoint := ec.1
    Labels := mergeLabels userConf.Labels imageConf.Labels
    StopSignal := fillIfZero userConf.StopSignal imageConf.StopSignal "" }

/-- The all-zero configuration (Go zero value), used to build concrete inputs. -/
def emptyConfig : Config :=
  { User := ""
    ExposedPorts := none
    Env := none
    Cmd := none
    Healthcheck := none
    ArgsEscaped := false
    Volumes := none
    WorkingDir := ""
    Entrypoint := none
    Labels := none
    StopSignal := "" }

/-- The env rule in the words of claim C6: user entries kept, then exactly
those base entries whose variable name does not match the name of any
user-supplied entry, in base order. Comparison definition only; the source
loop is `mergeEnvLoop`. -/
def mergeEnvClaimC6 (windows : Bool) (u i : List String) : List String :=
  u ++ i.filter fun e => ! envFound windows u e

/-- The appended-entries suffix in the words of amended claim C6 (non-empty
user list): walk the base entries in order, skip one whose variable name is
already bound in `seen` (the user entries plus the base entries appended
earlier), emit one whose name is fresh while extending `seen` with it.
Comparison definition, written with separate seen/output accumulators; the
source loop is `mergeEnvLoop`, which grows one single list in place. -/
def envAppended (windows : Bool) (seen : List String) : List String → List String
  | [] => []
  | e :: rest =>
    if envFound windows seen e then envAppended windows seen rest
    else e :: envAppended windows (seen ++ [e]) rest

/-- User config of the C6 counterexample. -/
def envUserC6 : Config := { emptyConfig with Env := some ["A=1"] }

/-- Image config of the C6 counterexample: two base entries share the key `B`. -/
def envImageC6 : Config := { emptyConfig with Env := some ["B=1", "B=2"] }

/-- User config of the C4 counterexample: a command but a nil entrypoint. -/
def entryUserC4 : Config := { emptyConfig with Entrypoint := none, Cmd := some ["top"] }

/-- Image config of the C4 counterexample. -/
def entryImageC4 : Config :=
  { emptyConfig with Entrypoint := some ["sh"], Cmd := some ["-c", "echo hi"] }

/-! ## Layer data and the Commit parent-chain walk -/

/-- `imagec.ImageWithMeta` restricted to the fields this file reads. `ID` and
`Parent` live in the embedded `models.Image` that `setLayerConfig` fills in
(modelled from the spec: the `imagec` package itself is not under `src/`). -/
structure ImageWithMeta where
  ID : String
  Parent : String
  DiffID : String
  BlobSum : String
  Size : Int
deriving DecidableEq, Repr

/-- `imagec.ScratchLayerID`, the sentinel parent of a root layer (modelled
from the spec: a sentinel scratch value; the concrete string is opaque). -/
def ScratchLayerID : String := "scratch"

/-- Outcome of the parent-chain walk, with explicit fuel so the source loop
can be embedded as a total function: `outOfFuel` means the loop was still
running after `fuel` iterations, for every `fuel`. `ok` carries the
accumulated `layers` slice and the final value of the `lm` variable. -/
inductive WalkResult where
  | ok (layers : List ImageWithMeta) (lm : ImageWithMeta)
  | missingParent (pl : String)
  | outOfFuel
deriving DecidableEq, Repr

/-- The loop of `Commit` at part_000 lines 118-124:
`for pl := lm.Parent; pl != imagec.ScratchLayerID \x7b ... \x7d` with an empty
post statement. The body rebinds `lm` from the cache and appends it, but never
assigns `pl`, so `pl` keeps its initial value on every iteration. -/
def walkGo (cache : String → Option ImageWithMeta) (pl : String)
    (layers : List ImageWithMeta) : Nat → WalkResult
  | 0 => .outOfFuel
  | Nat.succ fuel =>
    if pl = ScratchLayerID then .ok layers (layers.getLastD ⟨"", "", "", "", 0⟩)
    else
      match cache pl with
      | none => .missingParent pl
      | some lm2 => walkGo cache pl (layers ++ [lm2]) fuel

/-- The chain walk performed during `Commit`, entered with `layers = [lm]` and
the cursor at `lm.Parent`. -/
def commitChainWalk (cache : String → Option ImageWithMeta) (lm : ImageWithMeta)
    (fuel : Nat) : WalkResult :=
  walkGo cache lm.Parent [lm] fuel

/-- Modelled from the spec: the chain walk as §4.5 describes it — `repeatedly
look up the parent in the cache until the sentinel scratch value is reached` —
so the cursor advances to the parent of the layer just fetched. Comparison
definition for the walk embedded in `walkGo`. -/
def specWalkGo (cache : String → Option ImageWithMeta) (pl : String)
    (layers : List ImageWithMeta) : Nat → WalkResult
  | 0 => .outOfFuel
  | Nat.succ fuel =>
    if pl = ScratchLayerID then .ok layers (layers.getLastD ⟨"", "", "", "", 0⟩)
    else
      match cache pl with
      | none => .missingParent pl
      | some lm2 => specWalkGo cache lm2.Parent (layers ++ [lm2]) fuel

/-- Spec-described chain walk from a starting layer. -/
def specChainWalk (cache : String → Option ImageWithMeta) (lm : ImageWithMeta)
    (fuel : Nat) : WalkResult :=
  specWalkGo cache lm.Parent [lm] fuel

/-- Example layer L1, the root: its parent is the scratch sentinel. -/
def exL1 : ImageWithMeta := ⟨"L1", ScratchLayerID, "sha256:d1", "sha256:b1", 1⟩

/-- Example layer L2 stacked on L1. -/
def exL2 : ImageWithMeta := ⟨"L2", "L1", "sha256:d2", "sha256:b2", 2⟩

/-- Example layer L3 stacked on L2 (the freshly committed layer). -/
def exL3 : ImageWithMeta := ⟨"L3", "L2", "sha256:d3", "sha256:b3", 3⟩

/-- Layer cache holding the example chain L3 -> L2 -> L1 -> scratch. -/
def exCache : String → Option ImageWithMeta := fun id =>
  if id = "L1" then some exL1
  else if id = "L2" then some exL2
  else if id = "L3" then some exL3
  else none

/-! ## Diff materialization: `compressDiffToTmpFile` and `downloadDiff`

The filesystem is modelled as the list of file paths that exist. Digesting
and gzip encoding are deterministic pure functions of the byte stream; they
are taken as parameters `hash` and `gz` so every theorem below holds for the
real SHA-256 and gzip encoder in particular. The tar size scan runs over the
decompressed temp file, whose content is exactly the input stream (gzip
round-trip), so its parameter `tarSizes` is applied to the input bytes. -/

/-- Path of the `ioutil.TempFile` created for a container's diff. -/
def tmpPath (containerID : String) : String := "/tmp/" ++ containerID

/-- `imagec.DestinationDirectory(options)` joined with the random layer ID. -/
def destDir (layerID : String) : String := "/images/" ++ layerID

/-- Final content-addressed blob path `<dir>/<layerID>.tar`. -/
def finalLayerPath (layerID : String) : String :=
  destDir layerID ++ "/" ++ layerID ++ ".tar"

/-- `os.Remove`: drop a path from the filesystem. -/
def removeFile (fs : List String) (p : String) : List String :=
  fs.filter fun q => q ≠ p

/-- Failure injections for each fallible step of the materialization, in
source order: `ioutil.TempFile`, `io.Copy`, `os.Open`, `gzip.NewReader`,
`os.MkdirAll`, `os.Rename`. The tar-scan failure is injected through the
`tarSizes` parameter instead. -/
structure DiffFailures where
  tempFileErr : Bool
  copyErr : Bool
  openErr : Bool
  gzipErr : Bool
  mkdirErr : Bool
  renameErr : Bool
deriving DecidableEq, Repr

/-- No failure injected: every step succeeds. -/
def noFailures : DiffFailures := ⟨false, false, false, false, false, false⟩

/-- `dockerLayer.DigestSHA256EmptyTar`, the canonical digest of an empty tar
archive. -/
def emptyTarDigest : String :=
  "sha256:a3ed95caeb02ffe68cdd9fd84406680ae93d633cb16422d00e8a7c22955b46d4"

/-- Hex digit character for a value below 16. -/
def hexDigit (n : Nat) : Char :=
  if n < 10 then Char.ofNat (48 + n) else Char.ofNat (87 + n)

/-- Two lowercase hex digits of one byte. -/
def byteHex (b : Nat) : String :=
  String.mk [hexDigit (b / 16 % 16), hexDigit (b % 16)]

/-- `digest.NewDigestFromBytes(digest.SHA256, sum).String()`: the
`sha256:<hex>` rendering of a checksum. -/
def digestString (sum : List Nat) : String :=
  "sha256:" ++ String.join (sum.map byteHex)

/-- `compressDiffToTmpFile` (part_000 lines 312-358): create a temp file,
stream the input through gzip into it while hashing the uncompressed bytes
(`diffID`) and the compressed bytes (`blobSum`) in one pass. On a copy error
the deferred cleanup closes and removes the temp file before returning. On
success it returns the temp file name and the two checksums. -/
def compressDiffToTmpFile (hash gz : List Nat → List Nat) (fails : DiffFailures)
    (fs : List String) (input : List Nat) (containerID : String) :
    Except String (String × List Nat × List Nat) × List String :=
  if fails.tempFileErr then (.error "TempFile", fs)
  else
    let tmp := tmpPath containerID
    let fs1 := fs ++ [tmp]
    if fails.copyErr then (.error "Copy", removeFile fs1 tmp)
    else (.ok (tmp, hash input, hash (gz input)), fs1)

/-- `downloadDiff` (part_000 lines 230-309): compress and hash the stream to a
temp file, render both digests, re-open and decompress the temp file to sum
the tar entry sizes, override `diffID` with the empty-tar constant when the
summed size is zero, create the destination directory and atomically rename
the temp file to the final blob path. The deferred cleanup removes the temp
file whenever an error is returned after `compressDiffToTmpFile` succeeded.
The random `layerID` (`stringid.GenerateRandomID`) is a parameter. The
returned record's `ID` field sits in the embedded `models.Image` (not under
`src/`; modelled from the spec, which names the layer directory by the
randomly generated layer ID). -/
def downloadDiffM (hash gz : List Nat → List Nat)
    (tarSizes : List Nat → Except String (List Int)) (fails : DiffFailures)
    (fs : List String) (input : List Nat) (containerID layerID : String) :
    Except String ImageWithMeta × List String :=
  match compressDiffToTmpFile hash gz fails fs input containerID with
  | (.error e, fs1) => (.error e, fs1)
  | (.ok (tmp, diffIDSum, gzSum), fs1) =>
    let blobSum := digestString gzSum
    let diffID0 := digestString diffIDSum
    if fails.openErr then (.error "Open", removeFile fs1 tmp)
    else if fails.gzipErr then (.error "NewReader", removeFile fs1 tmp)
    else
      match tarSizes input with
      | .error e => (.error e, removeFile fs1 tmp)
      | .ok sizes =>
        let layerSize : Int := sizes.foldl (· + ·) 0
        let diffID := if layerSize = 0 then emptyTarDigest else diffID0
        if fails.mkdirErr then (.error "MkdirAll", removeFile fs1 tmp)
        else if fails.renameErr then (.error "Rename", removeFile fs1 tmp)
        else
          (.ok { ID := layerID, Parent := "", DiffID := diffID,
                 BlobSum := blobSum, Size := layerSize },
           removeFile fs1 tmp ++ [finalLayerPath layerID])

/-! ## The Commit orchestrator

`Commit` (part_000 lines 58-160) is embedded as a function of a dependency
record holding each collaborator's reply, returning the outcome together with
the ordered list of externally visible write/export effects. Pure lookups
(`GetContainer`, `ContainerInspect`) produce no effect entries. -/

/-- `container.State` fields consulted by `Commit`. -/
structure ContainerState where
  Running : Bool
  Restarting : Bool
deriving DecidableEq, Repr

/-- The container-cache record (`cache.ContainerCache().GetContainer`). -/
structure VicContainer where
  ContainerID : String
  LayerID : String
  ImageID : String
deriving DecidableEq, Repr

/-- `backend.ContainerCommitConfig` fields consulted by this model. -/
structure CommitConfig where
  Repo : String
  Tag : String
  MergeConfigs : Bool
deriving DecidableEq, Repr

/-- Externally visible side effects of `Commit`, in program order. -/
inductive Effect where
  | exportOpen
  | metaFileWrite
  | layerCacheAdd
  | imageCacheAdd (imageID : String)
  | imageCacheSave
  | updateRepoCache (ref : String)
  | writeImageBlob
  | layerCacheCommit
  | eventLog (action imageID refName : String)
deriving DecidableEq, Repr

/-- Error taxonomy used by `Commit`'s returns. -/
inductive CommitError where
  | notFound (name : String)
  | internal (msg : String)
  | conflict (msg : String)
  | other (msg : String)
deriving DecidableEq, Repr

/-- Result of a `Commit` run. `nilDerefPanic` models a Go nil-pointer
dereference (a runtime panic rather than a returned error); `diverge` reports
that the parent-chain loop was still running when the fuel ran out. -/
inductive CommitOutcome where
  | ok (imageID : String)
  | err (e : CommitError)
  | nilDerefPanic
  | diverge
deriving DecidableEq, Repr

/-- Replies of `Commit`'s collaborators, in source order. `withName` and
`withTag` are `reference.WithName` / `reference.WithTag`; their `ok` value is
the parsed reference rendered as a string. -/
structure CommitDeps where
  vc : Option VicContainer
  inspect : Except String ContainerState
  buildConfig : Except String Unit
  exportOpen : Except String Unit
  withName : String → Except String String
  withTag : String → String → Except String String
  downloadDiff : Except String ImageWithMeta
  layerConfig : Except String Unit
  writeMetaFile : Except String Unit
  layerCacheGet : String → Option ImageWithMeta
  createImageConfig : Except String String
  imageCacheSave : Except String Unit
  writeImageBlob : Except String Unit

/-- `getImagec` (part_000 lines 162-184), reduced to the reference that ends
up in `ic.Reference`. The source declares `var imageRef reference.Named`,
parses `config.Repo` (and `config.Tag`) into the local `newTag`, checking both
parse errors, but never assigns `newTag` to `imageRef`, so the `Options`
literal always carries a nil `Reference`. -/
def getImagecRef (deps : CommitDeps) (config : CommitConfig) :
    Except String (Option String) :=
  if config.Repo ≠ "" then
    match deps.withName config.Repo with
    | .error e => .error e
    | .ok newTag =>
      if config.Tag ≠ "" then
        match deps.withTag newTag config.Tag with
        | .error e => .error e
        | .ok _ => .ok none
      else .ok none
  else .ok none

/-- `Commit` (part_000 lines 58-160). Control points, in source order:
container lookup, inspect, running/restarting conflict check, config build,
optional merge (no failure mode), export-stream open, `getImagec`,
`downloadDiff` — whose error is overwritten by `setLayerConfig`'s return
value without being checked, so a failed download reaches `setLayerConfig`
with a nil `lm` and the first statement `trace.Begin(lm.ID)` dereferences
nil — metadata sidecar write, layer-cache add, parent-chain walk, image
config creation, image-cache add and save, conditional repository-cache
update, blob write, layer-cache commit, audit event. -/
def commitM (deps : CommitDeps) (config : CommitConfig) (fuel : Nat) :
    CommitOutcome × List Effect :=
  match deps.vc with
  | none => (.err (.notFound "name"), [])
  | some vc =>
    match deps.inspect with
    | .error e => (.err (.internal e), [])
    | .ok st =>
      if st.Running || st.Restarting then
        (.err (.conflict "does not support commit of a running container"), [])
      else
        match deps.buildConfig with
        | .error e => (.err (.other e), [])
        | .ok _ =>
          match deps.exportOpen with
          | .error _ =>
            (.err (.other "Unable to initialize export stream reader"), [])
          | .ok _ =>
            match getImagecRef deps config with
            | .error e => (.err (.other e), [.exportOpen])
            | .ok reference =>
              match deps.downloadDiff with
              | .error _ => (.nilDerefPanic, [.exportOpen])
              | .ok lm0 =>
                match deps.layerConfig with
                | .error e => (.err (.internal e), [.exportOpen])
                | .ok _ =>
                  let lm := { lm0 with Parent := vc.ImageID }
                  match deps.writeMetaFile with
                  | .error e => (.err (.other e), [.exportOpen])
                  | .ok _ =>
                    let effs1 : List Effect :=
                      [.exportOpen, .metaFileWrite, .layerCacheAdd]
                    match commitChainWalk deps.layerCacheGet lm fuel with
                    | .missingParent pl =>
                      (.err (.internal ("Failed to get parent image layer " ++ pl)),
                       effs1)
                    | .outOfFuel => (.diverge, effs1)
                    | .ok _layers _lmFinal =>
                      match deps.createImageConfig with
                      | .error e => (.err (.other e), effs1)
                      | .ok imageID =>
                        let effs2 := effs1 ++ [.imageCacheAdd imageID]
                        match deps.imageCacheSave with
                        | .error e =>
                          (.err (.other ("error saving image cache: " ++ e)), effs2)
                        | .ok _ =>
                          let effs3 := effs2 ++ [.imageCacheSave] ++
                            (match reference with
                             | some r => [.updateRepoCache r]
                             | none => [])
                          match deps.writeImageBlob with
                          | .error e => (.err (.other e), effs3)
                          | .ok _ =>
                            let refName :=
                              match reference with
                              | some r => r
                              | none => ""
                            (.ok imageID,
                             effs3 ++ [.writeImageBlob, .layerCacheCommit,
                                       .eventLog "commit" imageID refName])

/-- Collaborator replies for an all-success run whose container sits directly
on scratch; `downloadDiff` succeeds. Used for concrete Commit evaluations. -/
def depsOk : CommitDeps :=
  { vc := some ⟨"cid1", "clay1", ScratchLayerID⟩
    inspect := .ok ⟨false, false⟩
    buildConfig := .ok ()
    exportOpen := .ok ()
    withName := fun r => .ok r
    withTag := fun r t => .ok (r ++ ":" ++ t)
    downloadDiff := .ok ⟨"lay1", "", "sha256:d1", "sha256:b1", 100⟩
    layerConfig := .ok ()
    writeMetaFile := .ok ()
    layerCacheGet := fun _ => none
    createImageConfig := .ok "img1"
    imageCacheSave := .ok ()
    writeImageBlob := .ok () }

/-- Commit config of the C3 failing input: a repo and tag were supplied. -/
def cfgRepoC3 : CommitConfig := { Repo := "foo", Tag := "latest", MergeConfigs := false }

/-- Collaborator replies of the C2 failing input: everything up to the export
succeeds and `downloadDiff` fails with a disk error. -/
def depsDiffErrC2 : CommitDeps := { depsOk with downloadDiff := .error "disk full" }

/-- Commit config with no repo reference. -/
def cfgNoRepo : CommitConfig := { Repo := "", Tag := "", MergeConfigs := false }

/-- Collaborator replies of the C7 witness: the container is running. -/
def depsRunningC7 : CommitDeps := { depsOk with inspect := .ok ⟨true, false⟩ }

/-- Concrete hash instantiation for witnesses: the identity on byte lists. -/
def idHash : List Nat → List Nat := fun b => b

/-- Concrete gzip instantiation for witnesses: prepend the gzip magic bytes. -/
def gzTag : List Nat → List Nat := fun b => 31 :: 139 :: b

/-- Concrete tar scan for witnesses: an archive with no entries. -/
def tarScanEmpty : List Nat → Except String (List Int) := fun _ => .ok []

/-- Concrete tar scan for witnesses: one entry of size 3. -/
def tarScanOne : List Nat → Except String (List Int) := fun _ => .ok [3]

/-- Failure injection for the C8 witness: only the final rename fails. -/
def renameOnly : DiffFailures := { noFailures with renameErr := true }

/-- Image config of the C6 witness (the spec's own example). -/
def envImageEx : Config := { emptyConfig with Env := some ["A=2", "B=3"] }

/-! ## Helper lemmas about the insert-if-missing loop -/

theorem absorbList_append {α : Type} (hit : List α → α → Bool) :
    ∀ (is acc : List α), ∃ ext, absorbList hit acc is = acc ++ ext
  | [], acc => ⟨[], (List.append_nil acc).symm⟩
  | x :: rest, acc => by
    cases h : hit acc x
    · obtain ⟨ext, hext⟩ := absorbList_append hit rest (acc ++ [x])
      refine ⟨x :: ext, ?_⟩
      show absorbList hit (if hit acc x then acc else acc ++ [x]) rest = acc ++ x :: ext
      rw [h]
      simpa [List.append_assoc] using hext
    · obtain ⟨ext, hext⟩ := absorbList_append hit rest acc
      refine ⟨ext, ?_⟩
      show absorbList hit (if hit acc x then acc else acc ++ [x]) rest = acc ++ ext
      rw [h]
      simpa using hext

theorem absorbList_of_all_hit {α : Type} (hit : List α → α → Bool) :
    ∀ (is acc : List α), (∀ x ∈ is, hit acc x = true) → absorbList hit acc is = acc
  | [], _, _ => rfl
  | x :: rest, acc, h => by
    have hx : hit acc x = true := h x (List.mem_cons_self x rest)
    show absorbList hit (if hit acc x then acc else acc ++ [x]) rest = acc
    rw [if_pos hx]
    exact absorbList_of_all_hit hit rest acc fun y hy => h y (List.mem_cons_of_mem x hy)

theorem absorbList_hits {α : Type} (hit : List α → α → Bool)
    (hmono : ∀ acc ext x, hit acc x = true → hit (acc ++ ext) x = true)
    (hself : ∀ acc x, hit (acc ++ [x]) x = true) :
    ∀ (is acc : List α) (x : α), x ∈ is → hit (absorbList hit acc is) x = true
  | [], _, x, hx => absurd hx (List.not_mem_nil x)
  | y :: rest, acc, x, hx => by
    rcases List.mem_cons.mp hx with rfl | hx2
    · show hit (absorbList hit (if hit acc x then acc else acc ++ [x]) rest) x = true
      cases h : hit acc x
      · rw [if_neg Bool.false_ne_true]
        obtain ⟨ext, hext⟩ := absorbList_append hit rest (acc ++ [x])
        rw [hext]
        exact hmono (acc ++ [x]) ext x (hself acc x)
      · rw [if_pos rfl]
        obtain ⟨ext, hext⟩ := absorbList_append hit rest acc
        rw [hext]
        exact hmono acc ext x h
    · show hit (absorbList hit (if hit acc y then acc else acc ++ [y]) rest) x = true
      exact absorbList_hits hit hmono hself rest _ x hx2

theorem absorbList_spec {α : Type} (hit : List α → α → Bool)
    (hmono : ∀ acc ext x, hit acc x = true → hit (acc ++ ext) x = true) :
    ∀ (is acc : List α), ∃ ext, absorbList hit acc is = acc ++ ext ∧
      ∀ x ∈ ext, x ∈ is ∧ hit acc x = false
  | [], acc => ⟨[], (List.append_nil acc).symm, by simp⟩
  | y :: rest, acc => by
    cases h : hit acc y
    · obtain ⟨ext, hext, hall⟩ := absorbList_spec hit hmono rest (acc ++ [y])
      refine ⟨y :: ext, ?_, ?_⟩
      · show absorbList hit (if hit acc y then acc else acc ++ [y]) rest = acc ++ y :: ext
        rw [h]
        simpa [List.append_assoc] using hext
      · intro x hx
        rcases List.mem_cons.mp hx with rfl | hx2
        · exact ⟨List.mem_cons_self x rest, h⟩
        · obtain ⟨hmem, hfalse⟩ := hall x hx2
          refine ⟨List.mem_cons_of_mem y hmem, ?_⟩
          cases hax : hit acc x
          · rfl
          · have h2 := hmono acc [y] x hax
            rw [hfalse] at h2
            simp at h2
    · obtain ⟨ext, hext, hall⟩ := absorbList_spec hit hmono rest acc
      refine ⟨ext, ?_, ?_⟩
      · show absorbList hit (if hit acc y then acc else acc ++ [y]) rest = acc ++ ext
        rw [h]
        simpa using hext
      · intro x hx
        exact ⟨List.mem_cons_of_mem y (hall x hx).1, (hall x hx).2⟩

theorem envFound_mono (w : Bool) (acc ext : List String) (e : String)
    (h : envFound w acc e = true) : envFound w (acc ++ ext) e = true := by
  unfold envFound at h ⊢
  rw [List.any_append]
  rw [h]
  rfl

theorem envFound_self (w : Bool) (acc : List String) (e : String) :
    envFound w (acc ++ [e]) e = true := by
  unfold envFound
  rw [List.any_append]
  simp

theorem envFound_of_mem (w : Bool) (l : List String) (e : String) (he : e ∈ l) :
    envFound w l e = true := by
  unfold envFound
  rw [List.any_eq_true]
  exact ⟨e, he, by simp⟩

theorem keyFound_mono (acc ext : List String) (p : String)
    (h : keyFound acc p = true) : keyFound (acc ++ ext) p = true := by
  unfold keyFound at h ⊢
  rw [List.any_append, h]
  rfl

theorem keyFound_self (acc : List String) (p : String) :
    keyFound (acc ++ [p]) p = true := by
  unfold keyFound
  rw [List.any_append]
  simp

theorem keyFound_of_mem (l : List String) (p : String) (hp : p ∈ l) :
    keyFound l p = true := by
  unfold keyFound
  rw [List.any_eq_true]
  exact ⟨p, hp, by simp⟩

theorem labelKeyFound_mono (acc ext : List (String × String)) (l : String)
    (h : labelKeyFound acc l = true) : labelKeyFound (acc ++ ext) l = true := by
  unfold labelKeyFound at h ⊢
  rw [List.any_append, h]
  rfl

theorem labelKeyFound_self (acc : List (String × String)) (pr : String × String) :
    labelKeyFound (acc ++ [pr]) pr.1 = true := by
  unfold labelKeyFound
  rw [List.any_append]
  simp

theorem labelKeyFound_of_mem (l : List (String × String)) (pr : String × String)
    (hp : pr ∈ l) : labelKeyFound l pr.1 = true := by
  unfold labelKeyFound
  rw [List.any_eq_true]
  exact ⟨pr, hp, by simp⟩

/-! ## Per-field idempotence of the merge blocks -/

theorem fillIfZero_idem {α : Type} [DecidableEq α] (a b z : α) :
    fillIfZero (fillIfZero a b z) b z = fillIfZero a b z := by
  unfold fillIfZero
  by_cases h : a = z <;> simp [h]

theorem mergeEnv_idem (w : Bool) (u i : Option (List String)) :
    mergeEnv w (mergeEnv w u i) i = mergeEnv w u i := by
  by_cases hu : goLen u = 0
  · have h1 : mergeEnv w u i = i := by simp only [mergeEnv]; rw [if_pos hu]
    rw [h1]
    by_cases hi : goLen i = 0
    · simp only [mergeEnv]; rw [if_pos hi]
    · rcases i with _ | is
      · exact absurd rfl hi
      simp only [mergeEnv]
      rw [if_neg hi]
      show some (mergeEnvLoop w is is) = some is
      congr 1
      exact absorbList_of_all_hit _ is is fun e he => envFound_of_mem w is e he
  · rcases u with _ | us
    · exact absurd rfl hu
    have hus : us ≠ [] := fun h0 => hu (by simp [goLen, h0])
    have h1 : mergeEnv w (some us) i = some (mergeEnvLoop w us (i.getD [])) := by
      simp only [mergeEnv]; rw [if_neg hu]; rfl
    rw [h1]
    obtain ⟨ext, hext⟩ := absorbList_append (envFound w) (i.getD []) us
    have hlen : goLen (some (mergeEnvLoop w us (i.getD []))) ≠ 0 := by
      unfold mergeEnvLoop
      rw [hext]
      rcases us with _ | ⟨a, as⟩
      · exact absurd rfl hus
      · simp [goLen]
    simp only [mergeEnv]
    rw [if_neg hlen]
    congr 1
    show mergeEnvLoop w (mergeEnvLoop w us (i.getD [])) (i.getD []) = mergeEnvLoop w us (i.getD [])
    apply absorbList_of_all_hit
    intro e he
    exact absorbList_hits (envFound w) (envFound_mono w) (envFound_self w) (i.getD []) us e he

theorem mergePorts_idem (u i : Option (List String)) :
    mergePorts (mergePorts u i) i = mergePorts u i := by
  by_cases hu : goLen u = 0
  · have h1 : mergePorts u i = i := by simp only [mergePorts]; rw [if_pos hu]
    rw [h1]
    by_cases hi : goLen i = 0
    · simp only [mergePorts]; rw [if_pos hi]
    · rcases i with _ | is
      · exact absurd rfl hi
      simp only [mergePorts]
      rw [if_neg hi]
      show some (absorbList keyFound is is) = some is
      congr 1
      exact absorbList_of_all_hit _ is is fun p hp => keyFound_of_mem is p hp
  · rcases u with _ | us
    · exact absurd rfl hu
    have hus : us ≠ [] := fun h0 => hu (by simp [goLen, h0])
    rcases i with _ | is
    · have h1 : mergePorts (some us) none = some us := by
        simp only [mergePorts]; rw [if_neg hu]
      rw [h1, h1]
    · have h1 : mergePorts (some us) (some is) = some (absorbList keyFound us is) := by
        simp only [mergePorts]; rw [if_neg hu]; rfl
      rw [h1]
      obtain ⟨ext, hext⟩ := absorbList_append keyFound is us
      have hlen : goLen (some (absorbList keyFound us is)) ≠ 0 := by
        rw [hext]
        rcases us with _ | ⟨a, as⟩
        · exact absurd rfl hus
        · simp [goLen]
      simp only [mergePorts]
      rw [if_neg hlen]
      congr 1
      apply absorbList_of_all_hit
      intro p hp
      exact absorbList_hits keyFound keyFound_mono keyFound_self is us p hp

theorem mergeVolumes_idem (u i : Option (List String)) :
    mergeVolumes (mergeVolumes u i) i = mergeVolumes u i := by
  by_cases hu : goLen u = 0
  · have h1 : mergeVolumes u i = i := by simp only [mergeVolumes]; rw [if_pos hu]
    rw [h1]
    by_cases hi : goLen i = 0
    · simp only [mergeVolumes]; rw [if_pos hi]
    · rcases i with _ | is
      · exact absurd rfl hi
      simp only [mergeVolumes]
      rw [if_neg hi]
      show some (absorbList keyFound is is) = some is
      congr 1
      exact absorbList_of_all_hit _ is is fun p hp => keyFound_of_mem is p hp
  · rcases u with _ | us
    · exact absurd rfl hu
    have hus : us ≠ [] := fun h0 => hu (by simp [goLen, h0])
    have h1 : mergeVolumes (some us) i = some (absorbList keyFound us (i.getD [])) := by
      simp only [mergeVolumes]; rw [if_neg hu]; rfl
    rw [h1]
    obtain ⟨ext, hext⟩ := absorbList_append keyFound (i.getD []) us
    have hlen : goLen (some (absorbList keyFound us (i.getD []))) ≠ 0 := by
      rw [hext]
      rcases us with _ | ⟨a, as⟩
      · exact absurd rfl hus
      · simp [goLen]
    simp only [mergeVolumes]
    rw [if_neg hlen]
    congr 1
    apply absorbList_of_all_hit
    intro p hp
    exact absorbList_hits keyFound keyFound_mono keyFound_self (i.getD []) us p hp

theorem mergeLabels_idem (u i : Option (List (String × String))) :
    mergeLabels (mergeLabels u i) i = mergeLabels u i := by
  simp only [mergeLabels, Option.getD_some]
  congr 1
  apply absorbList_of_all_hit
  intro pr hpr
  exact absorbList_hits _ (fun acc ext pr2 h => labelKeyFound_mono acc ext pr2.1 h)
    (fun acc pr2 => labelKeyFound_self acc pr2) (i.getD []) (u.getD []) pr hpr

theorem mergeHealthcheck_idem (u i : Option HealthConfig) :
    mergeHealthcheck (mergeHealthcheck u i) i = mergeHealthcheck u i := by
  rcases i with _ | ih
  · rfl
  rcases u with _ | uh
  · show mergeHealthcheck (some ih) (some ih) = some ih
    simp [mergeHealthcheck, fillIfZero]
  · show mergeHealthcheck (some _) (some ih) = _
    simp only [mergeHealthcheck, Option.some.injEq, HealthConfig.mk.injEq]
    refine ⟨?_, fillIfZero_idem _ _ _, fillIfZero_idem _ _ _, fillIfZero_idem _ _ _⟩
    by_cases h : uh.Test.length = 0 <;> simp [h]

theorem mergeEntrypointCmd_idem (uE uC : Option (List String)) (uA : Bool)
    (iE iC : Option (List String)) (iA : Bool) :
    mergeEntrypointCmd (mergeEntrypointCmd uE uC uA iE iC iA).1
        (mergeEntrypointCmd uE uC uA iE iC iA).2.1
        (mergeEntrypointCmd uE uC uA iE iC iA).2.2 iE iC iA
      = mergeEntrypointCmd uE uC uA iE iC iA := by
  rcases uE with _ | (_ | ⟨e1, eR⟩) <;> rcases uC with _ | (_ | ⟨c1, cR⟩) <;>
    rcases iE with _ | (_ | ⟨f1, fR⟩) <;> rcases iC with _ | (_ | ⟨g1, gR⟩) <;>
      simp [mergeEntrypointCmd, goLen]

/-! ## Claim theorems -/

/-- C10: the config merge is idempotent — merging an already merged
configuration with the same image configuration changes nothing. -/
theorem merge_idempotent (w : Bool) (u i : Config) :
    merge w (merge w u i) i = merge w u i := by
  have hec := mergeEntrypointCmd_idem u.Entrypoint u.Cmd u.ArgsEscaped
    i.Entrypoint i.Cmd i.ArgsEscaped
  simp only [merge, Config.mk.injEq]
  refine ⟨fillIfZero_idem _ _ _, mergePorts_idem _ _, mergeEnv_idem _ _ _, ?_,
    mergeHealthcheck_idem _ _, ?_, mergeVolumes_idem _ _, fillIfZero_idem _ _ _,
    ?_, mergeLabels_idem _ _, fillIfZero_idem _ _ _⟩
  · rw [hec]
  · rw [hec]
  · rw [hec]

/-- C4 counterexample: with a nil user entrypoint and a non-empty user
command, `merge` inherits the image entrypoint while leaving the command
alone — refuting the claim that entrypoint and command are never inherited
one without the other. -/
theorem merge_entrypoint_atomicity_cex :
    (merge false entryUserC4 entryImageC4).Entrypoint = entryImageC4.Entrypoint ∧
    (merge false entryUserC4 entryImageC4).Cmd = entryUserC4.Cmd ∧
    (merge false entryUserC4 entryImageC4).Cmd ≠ entryImageC4.Cmd := by
  refine ⟨rfl, rfl, ?_⟩
  decide

/-- C4 as amended: when the user entrypoint is nil, the image entrypoint is
inherited; when additionally the user command is empty, the command and the
arguments-already-escaped flag are inherited along with it. (The inheritance
is atomic only in the both-unset case; a nil entrypoint is inherited on its
own even when a user command is present.) -/
theorem merge_entrypoint_cmd_inheritance (w : Bool) (u i : Config)
    (h : u.Entrypoint = none) :
    (merge w u i).Entrypoint = i.Entrypoint ∧
    (goLen u.Cmd = 0 →
      (merge w u i).Cmd = i.Cmd ∧ (merge w u i).ArgsEscaped = i.ArgsEscaped) := by
  have h0 : goLen u.Entrypoint = 0 := by rw [h]; rfl
  constructor
  · show (mergeEntrypointCmd u.Entrypoint u.Cmd u.ArgsEscaped
      i.Entrypoint i.Cmd i.ArgsEscaped).1 = i.Entrypoint
    simp [mergeEntrypointCmd, h0, h, goLen]
  · intro hc
    have hc2 : u.Cmd.getD [] = [] := List.length_eq_zero.mp hc
    constructor
    · show (mergeEntrypointCmd u.Entrypoint u.Cmd u.ArgsEscaped
        i.Entrypoint i.Cmd i.ArgsEscaped).2.1 = i.Cmd
      simp [mergeEntrypointCmd, h, hc2, goLen]
    · show (mergeEntrypointCmd u.Entrypoint u.Cmd u.ArgsEscaped
        i.Entrypoint i.Cmd i.ArgsEscaped).2.2 = i.ArgsEscaped
      simp [mergeEntrypointCmd, h, hc2, goLen]

/-- C4 witness: the amended theorem applied to a user configuration with nil
entrypoint and nil command. -/
theorem merge_entrypoint_cmd_inheritance_witness :
    emptyConfig.Entrypoint = none ∧
    ((merge false emptyConfig entryImageC4).Entrypoint = entryImageC4.Entrypoint ∧
     (goLen emptyConfig.Cmd = 0 →
       (merge false emptyConfig entryImageC4).Cmd = entryImageC4.Cmd ∧
       (merge false emptyConfig entryImageC4).ArgsEscaped = entryImageC4.ArgsEscaped)) :=
  ⟨rfl, merge_entrypoint_cmd_inheritance false emptyConfig entryImageC4 rfl⟩

/-- C6 counterexample: with user env `A=1` and image env `B=1, B=2`, the code
appends only `B=1` (the `found` check also sees previously appended image
entries), while the claim's rule — append exactly those base entries whose
name matches no user entry — would also append `B=2`. -/
theorem merge_env_exact_filter_cex :
    (merge false envUserC6 envImageC6).Env = some ["A=1", "B=1"] ∧
    mergeEnvClaimC6 false ["A=1"] ["B=1", "B=2"] = ["A=1", "B=1", "B=2"] ∧
    (merge false envUserC6 envImageC6).Env ≠
      some (mergeEnvClaimC6 false ["A=1"] ["B=1", "B=2"]) := by
  refine ⟨?_, ?_, ?_⟩ <;> decide

/-- The source env loop produces exactly the user list followed by the
amended-claim suffix: the grow-in-place recursion of `absorbList` with the
`envFound` hit equals the separate seen/output recursion of `envAppended`. -/
theorem absorbList_eq_envAppended (w : Bool) :
    ∀ (is acc : List String),
      absorbList (envFound w) acc is = acc ++ envAppended w acc is
  | [], acc => (List.append_nil acc).symm
  | e :: rest, acc => by
    show absorbList (envFound w) (if envFound w acc e then acc else acc ++ [e]) rest
      = acc ++ (if envFound w acc e then envAppended w acc rest
                else e :: envAppended w (acc ++ [e]) rest)
    cases h : envFound w acc e
    · rw [if_neg Bool.false_ne_true, if_neg Bool.false_ne_true,
        absorbList_eq_envAppended w rest (acc ++ [e])]
      simp [List.append_assoc]
    · rw [if_pos rfl, if_pos rfl]
      exact absorbList_eq_envAppended w rest acc

/-- The appended entries form a sublist of the base list: they appear in base
order and each base entry is emitted at most once. -/
theorem envAppended_sublist (w : Bool) :
    ∀ (is seen : List String), List.Sublist (envAppended w seen is) is
  | [], _ => List.nil_sublist []
  | e :: rest, seen => by
    show List.Sublist
      (if envFound w seen e then envAppended w seen rest
       else e :: envAppended w (seen ++ [e]) rest) (e :: rest)
    cases h : envFound w seen e
    · rw [if_neg Bool.false_ne_true]
      exact List.Sublist.cons₂ e (envAppended_sublist w rest (seen ++ [e]))
    · rw [if_pos rfl]
      exact List.Sublist.cons e (envAppended_sublist w rest seen)

/-- Every appended entry's variable name is absent from the initial seen
list; in particular it matches no user entry. -/
theorem envAppended_fresh (w : Bool) :
    ∀ (is seen : List String) (e : String),
      e ∈ envAppended w seen is → envFound w seen e = false
  | [], _, e, h => absurd h (List.not_mem_nil e)
  | x :: rest, seen, e, h => by
    revert h
    show e ∈ (if envFound w seen x then envAppended w seen rest
              else x :: envAppended w (seen ++ [x]) rest) →
      envFound w seen e = false
    cases hx : envFound w seen x
    · rw [if_neg Bool.false_ne_true]
      intro h
      rcases List.mem_cons.mp h with rfl | h2
      · exact hx
      · have h3 := envAppended_fresh w rest (seen ++ [x]) e h2
        cases hse : envFound w seen e
        · rfl
        · have h4 := envFound_mono w seen [x] e hse
          rw [h3] at h4
          simp at h4
    · rw [if_pos rfl]
      exact envAppended_fresh w rest seen e

/-- Appended entries carry pairwise distinct variable names: a base name is
appended at most once. -/
theorem envAppended_pairwise (w : Bool) :
    ∀ (is seen : List String),
      List.Pairwise (fun a b => normEnvKey w (envKey a) ≠ normEnvKey w (envKey b))
        (envAppended w seen is)
  | [], _ => List.Pairwise.nil
  | x :: rest, seen => by
    show List.Pairwise _
      (if envFound w seen x then envAppended w seen rest
       else x :: envAppended w (seen ++ [x]) rest)
    cases hx : envFound w seen x
    · rw [if_neg Bool.false_ne_true]
      refine List.Pairwise.cons ?_ (envAppended_pairwise w rest (seen ++ [x]))
      intro b hb hkey
      have hfresh := envAppended_fresh w rest (seen ++ [x]) b hb
      have htrue : envFound w (seen ++ [x]) b = true := by
        unfold envFound
        rw [List.any_eq_true]
        exact ⟨x, List.mem_append_right seen (by simp), beq_iff_eq.mpr hkey.symm⟩
      rw [hfresh] at htrue
      simp at htrue
    · rw [if_pos rfl]
      exact envAppended_pairwise w rest seen

/-- C6 as amended: user-supplied entries are kept unchanged and in order.
With an empty or nil user list the base list is inherited wholesale
(duplicate-named base entries included), which agrees with the original
claim there. With a non-empty user list, merge appends exactly the
`envAppended` suffix: base entries in base order, each appended only when
its variable name matches no entry already present (user entries or base
entries appended earlier) — so every appended entry's name matches no user
entry, appended names are pairwise distinct (a duplicate-named base entry is
appended at most once), and after the merge every base entry's name is
present. -/
theorem merge_env_appends_missing (w : Bool) (u i : Config) :
    (goLen u.Env = 0 → (merge w u i).Env = i.Env) ∧
    (∀ us, u.Env = some us → us ≠ [] →
      (merge w u i).Env = some (us ++ envAppended w us (i.Env.getD [])) ∧
      List.Sublist (envAppended w us (i.Env.getD [])) (i.Env.getD []) ∧
      (∀ e ∈ envAppended w us (i.Env.getD []), envFound w us e = false) ∧
      List.Pairwise (fun a b => normEnvKey w (envKey a) ≠ normEnvKey w (envKey b))
        (envAppended w us (i.Env.getD [])) ∧
      (∀ e ∈ i.Env.getD [], envFound w (us ++ envAppended w us (i.Env.getD [])) e = true)) := by
  constructor
  · intro h0
    show mergeEnv w u.Env i.Env = i.Env
    simp only [mergeEnv]
    rw [if_pos h0]
  · intro us hu hus
    have hlen : ¬ goLen (some us) = 0 := by
      rcases us with _ | ⟨a, as⟩
      · exact absurd rfl hus
      · simp [goLen]
    have heq : absorbList (envFound w) us (i.Env.getD [])
        = us ++ envAppended w us (i.Env.getD []) :=
      absorbList_eq_envAppended w (i.Env.getD []) us
    have henv : (merge w u i).Env = some (us ++ envAppended w us (i.Env.getD [])) := by
      show mergeEnv w u.Env i.Env = _
      rw [hu]
      simp only [mergeEnv]
      rw [if_neg hlen]
      show some (absorbList (envFound w) us (i.Env.getD [])) = _
      rw [heq]
    refine ⟨henv, envAppended_sublist w (i.Env.getD []) us,
      fun e he => envAppended_fresh w (i.Env.getD []) us e he,
      envAppended_pairwise w (i.Env.getD []) us, fun e he => ?_⟩
    have hhit := absorbList_hits (envFound w) (envFound_mono w) (envFound_self w)
      (i.Env.getD []) us e he
    rw [heq] at hhit
    exact hhit

/-- C6 witness: the amended theorem applied at the spec's own example
(`A=1` against `A=2, B=3`, non-empty branch) and at an empty user list
against the duplicate-named base `B=1, B=2` (wholesale branch). -/
theorem merge_env_appends_missing_witness :
    ((merge false envUserC6 envImageEx).Env
       = some (["A=1"] ++ envAppended false ["A=1"] (envImageEx.Env.getD [])) ∧
     (merge false envUserC6 envImageEx).Env = some ["A=1", "B=3"]) ∧
    (goLen emptyConfig.Env = 0 ∧
     (merge false emptyConfig envImageC6).Env = envImageC6.Env ∧
     (merge false emptyConfig envImageC6).Env = some ["B=1", "B=2"]) :=
  ⟨⟨((merge_env_appends_missing false envUserC6 envImageEx).2 ["A=1"] rfl
      (by decide)).1, by decide⟩,
   ⟨rfl, (merge_env_appends_missing false emptyConfig envImageC6).1 rfl, by decide⟩⟩

/-- Shared cleanup fact: removing a freshly created temp file restores the
original filesystem. -/
theorem removeFile_append_self (fs : List String) (p : String) (h : p ∉ fs) :
    removeFile (fs ++ [p]) p = fs := by
  unfold removeFile
  rw [List.filter_append]
  have h1 : ([p].filter fun q => decide (q ≠ p)) = [] := by simp
  have h2 : (fs.filter fun q => decide (q ≠ p)) = fs :=
    List.filter_eq_self.mpr fun a ha => decide_eq_true fun hEq => h (hEq ▸ ha)
  rw [h1, h2, List.append_nil]

/-- C1: on the chain L3 -> L2 -> L1 -> scratch, the chain walk embedded from
`Commit` never reaches the scratch sentinel no matter how many iterations it
is allowed (the cursor `pl` is never advanced past L2, so the loop re-fetches
L2 forever), while the walk as the spec describes it terminates cleanly with
the ordered chain `[L3, L2, L1]`. -/
theorem chainWalk_diverges_where_spec_terminates :
    (∀ fuel, commitChainWalk exCache exL3 fuel = .outOfFuel) ∧
    specChainWalk exCache exL3 4 = .ok [exL3, exL2, exL1] exL1 := by
  constructor
  · have hscr : ¬ ("L2" = ScratchLayerID) := by decide
    have hc : exCache "L2" = some exL2 := by decide
    have key : ∀ (f : Nat) (layers : List ImageWithMeta),
        walkGo exCache "L2" layers f = .outOfFuel := by
      intro f
      induction f with
      | zero => intro layers; rfl
      | succ n ih =>
        intro layers
        simp only [walkGo, hc]
        rw [if_neg hscr]
        exact ih (layers ++ [exL2])
    intro fuel
    exact key fuel [exL3]
  · decide

/-- C2: when `downloadDiff` fails, `Commit` does not return the error — the
error variable is immediately overwritten by `setLayerConfig`'s return value,
and `setLayerConfig` is entered with the nil layer pointer, whose first
dereference `lm.ID` panics. Evaluated at a concrete failing run where every
step before `downloadDiff` succeeds. -/
theorem commit_swallows_downloadDiff_error :
    commitM depsDiffErrC2 cfgNoRepo 1 =
      (.nilDerefPanic, [.exportOpen]) := rfl

/-- C3: a fully successful `Commit` with repo `foo` and tag `latest` still
registers no repository mapping and emits the audit event with an empty
`refName`, because `getImagec` never assigns the parsed reference to
`imageRef`. The effect trace contains no repository-cache update and ends
with `eventLog "commit" "img1" ""`. -/
theorem commit_drops_repo_reference :
    commitM depsOk cfgRepoC3 1 =
      (.ok "img1",
       [.exportOpen, .metaFileWrite, .layerCacheAdd, .imageCacheAdd "img1",
        .imageCacheSave, .writeImageBlob, .layerCacheCommit,
        .eventLog "commit" "img1" ""]) := rfl

/-- C5: whenever the tar size scan reports no entries or a zero total size,
the materialized layer's `diffID` is the canonical empty-archive digest
constant, regardless of the digest computed from the actual stream bytes. -/
theorem empty_layer_diffID_constant (hash gz : List Nat → List Nat)
    (tarSizes : List Nat → Except String (List Int)) (fs : List String)
    (input : List Nat) (containerID layerID : String) (sizes : List Int)
    (lm : ImageWithMeta) (fs2 : List String)
    (hsizes : tarSizes input = .ok sizes)
    (hzero : sizes = [] ∨ sizes.foldl (· + ·) 0 = 0)
    (hrun : downloadDiffM hash gz tarSizes noFailures fs input containerID layerID
      = (.ok lm, fs2)) :
    lm.DiffID = emptyTarDigest := by
  have hsum : sizes.foldl (· + ·) 0 = 0 := by
    rcases hzero with h | h
    · rw [h]; rfl
    · exact h
  simp only [downloadDiffM, compressDiffToTmpFile, noFailures, hsizes, hsum] at hrun
  simp at hrun
  rw [← hrun.1]

/-- C5 witness: the theorem applied to a concrete empty archive. -/
theorem empty_layer_diffID_constant_witness :
    (tarScanEmpty [1, 2] = .ok [] ∧
     (([] : List Int) = [] ∨ ([] : List Int).foldl (· + ·) 0 = 0) ∧
     downloadDiffM idHash gzTag tarScanEmpty noFailures [] [1, 2] "c1" "lay1"
       = (.ok ⟨"lay1", "", emptyTarDigest, "sha256:1f8b0102", 0⟩,
          ["/images/lay1/lay1.tar"])) ∧
    (⟨"lay1", "", emptyTarDigest, "sha256:1f8b0102", 0⟩ : ImageWithMeta).DiffID
      = emptyTarDigest :=
  ⟨⟨rfl, Or.inl rfl, rfl⟩,
   empty_layer_diffID_constant idHash gzTag tarScanEmpty [] [1, 2] "c1" "lay1"
     [] _ _ rfl (Or.inl rfl) rfl⟩

/-- C7: a running or restarting container makes `Commit` return the conflict
error with an empty effect trace — no filesystem write, stream export, or
cache mutation has happened at that point. -/
theorem commit_conflict_on_running (deps : CommitDeps) (config : CommitConfig)
    (fuel : Nat) (vc : VicContainer) (st : ContainerState)
    (hvc : deps.vc = some vc) (hst : deps.inspect = .ok st)
    (hrun : st.Running = true ∨ st.Restarting = true) :
    commitM deps config fuel =
      (.err (.conflict "does not support commit of a running container"), []) := by
  have hor : (st.Running || st.Restarting) = true := by
    rcases hrun with h | h <;> simp [h]
  unfold commitM
  rw [hvc, hst]
  simp [hor]

/-- C7 witness: the theorem applied to a concrete running container. -/
theorem commit_conflict_on_running_witness :
    (depsRunningC7.vc = some ⟨"cid1", "clay1", ScratchLayerID⟩ ∧
     depsRunningC7.inspect = .ok ⟨true, false⟩ ∧
     ((⟨true, false⟩ : ContainerState).Running = true ∨
      (⟨true, false⟩ : ContainerState).Restarting = true)) ∧
    commitM depsRunningC7 cfgNoRepo 1 =
      (.err (.conflict "does not support commit of a running container"), []) :=
  ⟨⟨rfl, rfl, Or.inl rfl⟩,
   commit_conflict_on_running depsRunningC7 cfgNoRepo 1 _ _ rfl rfl (Or.inl rfl)⟩

/-- C8: every failing run of the materialization leaves the filesystem
exactly as it was — the temp file created for the diff is removed on every
error exit, and no blob file appears at any final content-addressed path. -/
theorem downloadDiff_error_cleanup (hash gz : List Nat → List Nat)
    (tarSizes : List Nat → Except String (List Int)) (fails : DiffFailures)
    (fs : List String) (input : List Nat) (containerID layerID : String)
    (e : String) (fs2 : List String)
    (hfresh : tmpPath containerID ∉ fs)
    (hrun : downloadDiffM hash gz tarSizes fails fs input containerID layerID
      = (.error e, fs2)) :
    fs2 = fs := by
  have hrem := removeFile_append_self fs (tmpPath containerID) hfresh
  obtain ⟨f1, f2, f3, f4, f5, f6⟩ := fails
  rcases hts : tarSizes input with e2 | sizes <;>
    cases f1 <;> cases f2 <;> cases f3 <;> cases f4 <;> cases f5 <;> cases f6 <;>
      simp only [downloadDiffM, compressDiffToTmpFile, hts] at hrun <;>
      simp [hrem] at hrun <;>
      exact hrun.2.symm

/-- C8 witness: the theorem at a concrete run where the final rename fails. -/
theorem downloadDiff_error_cleanup_witness :
    (tmpPath "c1" ∉ ["/keep"] ∧
     downloadDiffM idHash gzTag tarScanOne renameOnly ["/keep"] [1, 2, 3] "c1" "lay1"
       = (.error "Rename", ["/keep"])) ∧
    (["/keep"] : List String) = ["/keep"] :=
  ⟨⟨by decide, rfl⟩,
   downloadDiff_error_cleanup idHash gzTag tarScanOne renameOnly ["/keep"]
     [1, 2, 3] "c1" "lay1" "Rename" ["/keep"] (by decide) rfl⟩

/-- C9: the digest pipeline is deterministic on the input bytes — two
successful runs over the same non-empty input, with different random temp
file names, random layer IDs and initial filesystems, produce the same
`diffID` and the same `blobSum`. -/
theorem digest_pipeline_deterministic (hash gz : List Nat → List Nat)
    (tarSizes : List Nat → Except String (List Int)) (fsA fsB : List String)
    (input : List Nat) (cidA lidA cidB lidB : String)
    (lmA lmB : ImageWithMeta) (fsA2 fsB2 : List String)
    (_hne : input ≠ [])
    (hA : downloadDiffM hash gz tarSizes noFailures fsA input cidA lidA
      = (.ok lmA, fsA2))
    (hB : downloadDiffM hash gz tarSizes noFailures fsB input cidB lidB
      = (.ok lmB, fsB2)) :
    lmA.DiffID = lmB.DiffID ∧ lmA.BlobSum = lmB.BlobSum := by
  simp only [downloadDiffM, compressDiffToTmpFile, noFailures] at hA hB
  rcases hts : tarSizes input with e | sizes
  · rw [hts] at hA
    simp at hA
  · rw [hts] at hA hB
    simp at hA hB
    rw [← hA.1, ← hB.1]
    exact ⟨rfl, rfl⟩

/-- C9 witness: the theorem at two concrete runs with different container IDs,
layer IDs and starting filesystems. -/
theorem digest_pipeline_deterministic_witness :
    (([1, 2, 3] : List Nat) ≠ [] ∧
     downloadDiffM idHash gzTag tarScanOne noFailures [] [1, 2, 3] "c1" "lay1"
       = (.ok ⟨"lay1", "", "sha256:010203", "sha256:1f8b010203", 3⟩,
          ["/images/lay1/lay1.tar"]) ∧
     downloadDiffM idHash gzTag tarScanOne noFailures ["/other"] [1, 2, 3] "c2" "lay2"
       = (.ok ⟨"lay2", "", "sha256:010203", "sha256:1f8b010203", 3⟩,
          ["/other", "/images/lay2/lay2.tar"])) ∧
    ((⟨"lay1", "", "sha256:010203", "sha256:1f8b010203", 3⟩ : ImageWithMeta).DiffID
       = (⟨"lay2", "", "sha256:010203", "sha256:1f8b010203", 3⟩ : ImageWithMeta).DiffID ∧
     (⟨"lay1", "", "sha256:010203", "sha256:1f8b010203", 3⟩ : ImageWithMeta).BlobSum
       = (⟨"lay2", "", "sha256:010203", "sha256:1f8b010203", 3⟩ : ImageWithMeta).BlobSum) :=
  ⟨⟨by decide, rfl, rfl⟩,
   digest_pipeline_deterministic idHash gzTag tarScanOne [] ["/other"] [1, 2, 3]
     "c1" "lay1" "c2" "lay2" _ _ _ _ (by decide) rfl rfl⟩

end VicCommit

